import Mathlib

/-!
Shallow embedding of the nodegit-flow Release and Hotfix workflows
(src/src/Release.js and the Hotfix source file), together with models of the
external collaborators the specification describes (configuration lookup,
merge, tag creation, safe branch deletion). Pipelines return the final
repository state, the chronological trace of engine operations and callback
invocations, and the outcome.
-/

/-- Commit object identifiers; the model identifies a commit object with its
id, so commit lookup by id is total. -/
abbrev Oid := Nat

/-- Gitflow configuration mapping, one field per required key:
gitflow.branch.master, gitflow.branch.develop, gitflow.prefix.hotfix,
gitflow.prefix.release, gitflow.prefix.versiontag. -/
structure GitflowConfig where
  branchMaster : String
  branchDevelop : String
  prefHotfix : String
  prefRelease : String
  prefVersiontag : String
deriving Repr, DecidableEq

/-- Repository state: resolved gitflow configuration, local branches as an
association list from branch name to target commit id, the branch HEAD points
at, created tags, and a counter supplying fresh commit ids for merge commits. -/
structure RepoState where
  config : GitflowConfig
  branches : List (String × Oid)
  headBranch : String
  tags : List (String × Oid)
  freshOid : Oid
deriving Repr, DecidableEq

/-- Observable engine operations and callback invocations, recorded in
chronological order. -/
inductive Event where
  | configRead
  | branchLookup (name : String)
  | commitLookup (oid : Oid)
  | createBranch (name : String) (oid : Oid)
  | checkout (name : String)
  | postCheckoutHook (oldId newId : Oid)
  | beforeMergeCallback (target source : String)
  | mergeOp (target source : String)
  | postDevelopMergeCallback (oid : Oid)
  | postMasterMergeCallback (oid : Oid)
  | tagCreate (name : String) (oid : Oid)
  | branchDelete (name : String)
deriving Repr, DecidableEq

/-- Errors of the workflow pipelines, following the error taxonomy of the
specification; hook rejections carry the original error. -/
inductive FlowError where
  | missingRepository
  | missingVersion
  | branchNotFound (name : String)
  | hookError (e : String)
deriving Repr, DecidableEq

/-- Result of one workflow call: the final repository state (none when no
repository was supplied), the chronological trace, and the outcome. On an
error outcome the state still records every side effect performed before the
failure (fail-fast, no rollback). -/
structure FlowResult (α : Type) where
  repo : Option RepoState
  trace : List Event
  outcome : Except FlowError α

/-- Branch lookup by name (NodeGit.Branch.lookup on the model): the target
commit id of the first branch entry with the given name. -/
def lookupBranch (r : RepoState) (name : String) : Option Oid :=
  (r.branches.find? (fun b => b.1 == name)).map (fun b => b.2)

/-- Target commit id of the branch HEAD currently points at. -/
def RepoState.headTarget (r : RepoState) : Oid :=
  (lookupBranch r r.headBranch).getD 0

/-- Modelled from the spec: ConfigProvider (Config.getConfig is not under
src/) resolves the flat gitflow configuration mapping for the repository; the
model stores the resolved mapping on the repository state. -/
def getConfig (r : RepoState) : GitflowConfig :=
  r.config

/-- Update every branch entry of the given name to the new target commit id. -/
def setBranch (bs : List (String × Oid)) (name : String) (oid : Oid) :
    List (String × Oid) :=
  bs.map (fun b => if b.1 == name then (name, oid) else b)

/-- Remove every branch entry of the given name. -/
def RepoState.deleteBranch (r : RepoState) (name : String) : RepoState :=
  { r with branches := r.branches.filter (fun b => b.1 != name) }

/-- Modelled from the spec: VersionControlEngine merge(intoBranch, fromBranch,
repo, messageCallback, signingCallback) (utils.Repo.merge is not under src/).
Creates a fresh merge commit and advances the target branch to it; the message
and signing callbacks affect only commit metadata, which the model does not
track. -/
def Repo.merge (r : RepoState) (intoBranch : String) : RepoState × Oid :=
  ({ r with branches := setBranch r.branches intoBranch r.freshOid,
            freshOid := r.freshOid + 1 }, r.freshOid)

/-- Modelled from the spec: createTag(commitOid, name, message, repo)
(utils.Tag.create is not under src/) records a tag of the given name at the
given commit; the tag message is metadata the model does not track. -/
def Tag.create (r : RepoState) (oid : Oid) (name : String) : RepoState :=
  { r with tags := r.tags ++ [(name, oid)] }

/-- Modelled from the spec: deleteBranchSafely(repo, branchName,
fallbackBranchName, postCheckoutHook) (utils.Repo.safelyDeleteBranch is not
under src/): when HEAD points at the branch being deleted, first check out the
fallback branch, invoking postCheckoutHook with the old and new HEAD targets,
then delete; otherwise delete directly. -/
def Repo.safelyDeleteBranch (r : RepoState) (branchName fallbackName : String)
    (hook : Oid → Oid → Except String Unit) :
    RepoState × List Event × Except FlowError Unit :=
  if r.headBranch == branchName then
    let oldTarget := r.headTarget
    let checked : RepoState := { r with headBranch := fallbackName }
    let newTarget := checked.headTarget
    match hook oldTarget newTarget with
    | .error e =>
      (checked, [.checkout fallbackName, .postCheckoutHook oldTarget newTarget],
        .error (.hookError e))
    | .ok _ =>
      (checked.deleteBranch branchName,
        [.checkout fallbackName, .postCheckoutHook oldTarget newTarget,
         .branchDelete branchName],
        .ok ())
  else
    (r.deleteBranch branchName, [.branchDelete branchName], .ok ())

/-- Options of startRelease and startHotfix (Release.js lines 20-23, Hotfix
lines 20-22). Only startRelease reads the sha field; startHotfix destructures
postCheckoutHook alone. Hooks may reject, modelled by an error result. -/
structure StartOptions where
  postCheckoutHook : Oid → Oid → Except String Unit := fun _ _ => Except.ok ()
  sha : Option Oid := none

/-- Options of finishRelease and finishHotfix (Release.js lines 79-89, Hotfix
lines 72-82), every recognized field with its default: no-op hooks (the
identity for the merge-outcome transformers), false for the flags, none for
the callbacks passed through to the engine. -/
structure FinishOptions where
  keepBranch : Bool := false
  message : String := ""
  processMergeMessageCallback : Option (String → String) := none
  beforeMergeCallback : String → String → Except String Unit := fun _ _ => Except.ok ()
  postDevelopMergeCallback : Oid → Except String Oid := fun o => Except.ok o
  postMasterMergeCallback : Oid → Except String Oid := fun o => Except.ok o
  postCheckoutHook : Oid → Oid → Except String Unit := fun _ _ => Except.ok ()
  signingCallback : Option (String → String) := none
  onlyMaster : Bool := false

/-- Shared tail of startRelease and startHotfix (Release.js lines 54-67,
Hotfix lines 47-60): create the branch at the starting commit, record HEAD,
check the branch out, and invoke postCheckoutHook with the old and new HEAD
targets; the hook result does not alter the returned branch. -/
def startCheckoutStep (r : RepoState) (hook : Oid → Oid → Except String Unit)
    (branchName : String) (startingCommit : Oid) (t0 : List Event) :
    FlowResult (String × Oid) :=
  let r1 : RepoState := { r with branches := r.branches ++ [(branchName, startingCommit)] }
  let oldTarget := r1.headTarget
  let r2 : RepoState := { r1 with headBranch := branchName }
  let newTarget := r2.headTarget
  let t := t0 ++ [Event.createBranch branchName startingCommit, Event.checkout branchName,
                  Event.postCheckoutHook oldTarget newTarget]
  match hook oldTarget newTarget with
  | .error e => ⟨some r2, t, .error (.hookError e)⟩
  | .ok _ => ⟨some r2, t, .ok (branchName, startingCommit)⟩

/-- startRelease (Release.js lines 19-68): guards, then the starting commit is
the sha when supplied and the target of the develop branch otherwise, then the
create-checkout-hook tail. -/
def startRelease (repo : Option RepoState) (releaseVersion : String)
    (options : StartOptions) : FlowResult (String × Oid) :=
  match repo with
  | none => ⟨none, [], .error .missingRepository⟩
  | some r =>
    if releaseVersion = "" then ⟨some r, [], .error .missingVersion⟩
    else
      let config := getConfig r
      let developBranchName := config.branchDevelop
      let releaseBranchName := config.prefRelease ++ releaseVersion
      match options.sha with
      | some sha =>
        startCheckoutStep r options.postCheckoutHook releaseBranchName sha
          [.configRead, .commitLookup sha]
      | none =>
        match lookupBranch r developBranchName with
        | none =>
          ⟨some r, [.configRead, .branchLookup developBranchName],
            .error (.branchNotFound developBranchName)⟩
        | some developOid =>
          startCheckoutStep r options.postCheckoutHook releaseBranchName developOid
            [.configRead, .branchLookup developBranchName, .commitLookup developOid]

/-- startHotfix (Hotfix source lines 19-61). The options object may carry a
sha field, but startHotfix destructures only postCheckoutHook, so sha is
ignored and the starting commit is always the target of the master branch. -/
def startHotfix (repo : Option RepoState) (hotfixVersion : String)
    (options : StartOptions) : FlowResult (String × Oid) :=
  match repo with
  | none => ⟨none, [], .error .missingRepository⟩
  | some r =>
    if hotfixVersion = "" then ⟨some r, [], .error .missingVersion⟩
    else
      let config := getConfig r
      let hotfixBranchName := config.prefHotfix ++ hotfixVersion
      let masterBranchName := config.branchMaster
      match lookupBranch r masterBranchName with
      | none =>
        ⟨some r, [.configRead, .branchLookup masterBranchName],
          .error (.branchNotFound masterBranchName)⟩
      | some masterOid =>
        startCheckoutStep r options.postCheckoutHook hotfixBranchName masterOid
          [.configRead, .branchLookup masterBranchName, .commitLookup masterOid]

/-- Develop-merge stage of finish (Release.js lines 144-149, Hotfix lines
137-142): when not cancelled, invoke beforeMergeCallback, merge the workflow
branch into develop, and pass the merge commit through
postDevelopMergeCallback, whose result becomes the develop merge outcome
(utils.InjectIntermediateCallback, modelled from the spec). When cancelled the
stage resolves to the no-merge indicator. -/
def developMergeStep (r : RepoState) (options : FinishOptions)
    (developBranchName workflowBranchName : String) (cancel : Bool) :
    RepoState × List Event × Except FlowError (Option Oid) :=
  if cancel then (r, [], .ok none)
  else
    match options.beforeMergeCallback developBranchName workflowBranchName with
    | .error e =>
      (r, [.beforeMergeCallback developBranchName workflowBranchName],
        .error (.hookError e))
    | .ok _ =>
      let merged := Repo.merge r developBranchName
      let ev : List Event :=
        [.beforeMergeCallback developBranchName workflowBranchName,
         .mergeOp developBranchName workflowBranchName,
         .postDevelopMergeCallback merged.2]
      match options.postDevelopMergeCallback merged.2 with
      | .error e => (merged.1, ev, .error (.hookError e))
      | .ok outOid => (merged.1, ev, .ok (some outOid))

/-- Master-merge and tag stage of finish (Release.js lines 151-165, Hotfix
lines 144-159): when not cancelled, invoke beforeMergeCallback, merge the
workflow branch into master, pass the merge commit through
postMasterMergeCallback, and create the tag at the resulting commit; when
cancelled, create the tag at the existing master commit. -/
def masterMergeTagStep (r : RepoState) (options : FinishOptions)
    (masterBranchName workflowBranchName tagName : String) (masterOid : Oid)
    (cancel : Bool) :
    RepoState × List Event × Except FlowError Unit :=
  if cancel then
    (Tag.create r masterOid tagName, [.tagCreate tagName masterOid], .ok ())
  else
    match options.beforeMergeCallback masterBranchName workflowBranchName with
    | .error e =>
      (r, [.beforeMergeCallback masterBranchName workflowBranchName],
        .error (.hookError e))
    | .ok _ =>
      let merged := Repo.merge r masterBranchName
      let ev : List Event :=
        [.beforeMergeCallback masterBranchName workflowBranchName,
         .mergeOp masterBranchName workflowBranchName,
         .postMasterMergeCallback merged.2]
      match options.postMasterMergeCallback merged.2 with
      | .error e => (merged.1, ev, .error (.hookError e))
      | .ok oid =>
        (Tag.create merged.1 oid tagName, ev ++ [.tagCreate tagName oid], .ok ())

/-- Cleanup stage of finish (Release.js lines 166-172, Hotfix lines 160-166):
unless keepBranch is set, safely delete the workflow branch with master as the
fallback checkout target. -/
def cleanupStep (r : RepoState) (options : FinishOptions)
    (workflowBranchName masterBranchName : String) :
    RepoState × List Event × Except FlowError Unit :=
  if options.keepBranch then (r, [], .ok ())
  else Repo.safelyDeleteBranch r workflowBranchName masterBranchName options.postCheckoutHook

/-- Finish pipeline shared by finishRelease and finishHotfix (Release.js lines
78-174, Hotfix lines 71-168); the two differ only in which configured name
builds the workflow branch name, selected by sel. -/
def finishCore (sel : GitflowConfig → String) (repo : Option RepoState)
    (version : String) (options : FinishOptions) : FlowResult (Option Oid) :=
  match repo with
  | none => ⟨none, [], .error .missingRepository⟩
  | some r =>
    if version = "" then ⟨some r, [], .error .missingVersion⟩
    else
      let config := getConfig r
      let developBranchName := config.branchDevelop
      let workflowBranchName := sel config ++ version
      let masterBranchName := config.branchMaster
      let lookupTrace : List Event :=
        [.configRead, .branchLookup developBranchName, .branchLookup workflowBranchName,
         .branchLookup masterBranchName]
      match lookupBranch r developBranchName with
      | none => ⟨some r, lookupTrace, .error (.branchNotFound developBranchName)⟩
      | some developOid =>
        match lookupBranch r workflowBranchName with
        | none => ⟨some r, lookupTrace, .error (.branchNotFound workflowBranchName)⟩
        | some workflowOid =>
          match lookupBranch r masterBranchName with
          | none => ⟨some r, lookupTrace, .error (.branchNotFound masterBranchName)⟩
          | some masterOid =>
            let t0 := lookupTrace ++
              [Event.commitLookup developOid, Event.commitLookup workflowOid,
               Event.commitLookup masterOid]
            let cancelDevelopMerge := options.onlyMaster || developOid == workflowOid
            let cancelMasterMerge := masterOid == workflowOid
            match developMergeStep r options developBranchName workflowBranchName cancelDevelopMerge with
            | (r1, t1, .error e) => ⟨some r1, t0 ++ t1, .error e⟩
            | (r1, t1, .ok mergeOutcome) =>
              let tagName := config.prefVersiontag ++ version
              match masterMergeTagStep r1 options masterBranchName workflowBranchName tagName masterOid cancelMasterMerge with
              | (r2, t2, .error e) => ⟨some r2, t0 ++ t1 ++ t2, .error e⟩
              | (r2, t2, .ok _) =>
                match cleanupStep r2 options workflowBranchName masterBranchName with
                | (r3, t3, .error e) => ⟨some r3, t0 ++ t1 ++ t2 ++ t3, .error e⟩
                | (r3, t3, .ok _) => ⟨some r3, t0 ++ t1 ++ t2 ++ t3, .ok mergeOutcome⟩

/-- finishRelease (Release.js lines 78-174): the workflow branch name is built
from the release name and the configured release branch name stem. -/
def finishRelease (repo : Option RepoState) (releaseVersion : String)
    (options : FinishOptions) : FlowResult (Option Oid) :=
  finishCore (fun config => config.prefRelease) repo releaseVersion options

/-- finishHotfix (Hotfix source lines 71-168): the workflow branch name is
built from the hotfix name and the configured hotfix branch name stem. -/
def finishHotfix (repo : Option RepoState) (hotfixVersion : String)
    (options : FinishOptions) : FlowResult (Option Oid) :=
  finishCore (fun config => config.prefHotfix) repo hotfixVersion options

/-- Sample configuration used by the concrete witnesses. -/
def sampleConfig : GitflowConfig :=
  { branchMaster := "master", branchDevelop := "develop",
    prefHotfix := "hotfix/", prefRelease := "release/", prefVersiontag := "v" }

/-- Sample repository with distinct develop, master and release commits, HEAD
on the release branch. -/
def sampleRepo : RepoState :=
  { config := sampleConfig,
    branches := [("develop", 2), ("release/1.0", 3), ("master", 1)],
    headBranch := "release/1.0", tags := [], freshOid := 10 }

/-! Helper lemmas about the embedded operations and pipeline stages. -/

theorem setBranch_cons (b : String × Oid) (bs : List (String × Oid)) (name : String)
    (oid : Oid) :
    setBranch (b :: bs) name oid =
      (if b.1 == name then (name, oid) else b) :: setBranch bs name oid := rfl

theorem find?_setBranch_isSome (bs : List (String × Oid)) (name : String) (oid : Oid)
    (n : String) :
    ((setBranch bs name oid).find? (fun b => b.1 == n)).isSome =
      (bs.find? (fun b => b.1 == n)).isSome := by
  induction bs with
  | nil => rfl
  | cons b bs ih =>
    have hkey : ((if b.1 == name then (name, oid) else b).1 == n) = (b.1 == n) := by
      by_cases hb : b.1 = name <;> simp [hb]
    rw [setBranch_cons]
    simp only [List.find?_cons, hkey]
    cases hn : b.1 == n
    · simp only [hn]
      exact ih
    · simp only [hn, Option.isSome_some]

theorem lookupBranch_deleteBranch (r : RepoState) (n : String) :
    lookupBranch (r.deleteBranch n) n = none := by
  unfold lookupBranch RepoState.deleteBranch
  simp only [Option.map_eq_none', List.find?_eq_none, List.mem_filter]
  intro x hx
  simp only [bne_iff_ne, ne_eq] at hx
  simp [hx.2]

theorem find?_append_single_isSome (bs : List (String × Oid)) (n : String) (o : Oid) :
    ((bs ++ [(n, o)]).find? (fun b => b.1 == n)).isSome = true := by
  induction bs with
  | nil => simp [List.find?]
  | cons b bs ih =>
    by_cases hb : b.1 = n <;> simp [List.find?_cons, hb, ih]

theorem developMergeStep_cancel (r : RepoState) (o : FinishOptions) (dn wn : String) :
    developMergeStep r o dn wn true = (r, [], Except.ok none) := rfl

theorem developMergeStep_ok_shape (r : RepoState) (o : FinishOptions) (dn wn : String)
    (r1 : RepoState) (t1 : List Event) (mo : Option Oid)
    (h : developMergeStep r o dn wn false = (r1, t1, Except.ok mo)) :
    ∃ oid, o.postDevelopMergeCallback r.freshOid = Except.ok oid ∧ mo = some oid ∧
      r1 = (Repo.merge r dn).1 ∧
      t1 = [Event.beforeMergeCallback dn wn, Event.mergeOp dn wn,
            Event.postDevelopMergeCallback r.freshOid] := by
  unfold developMergeStep at h
  simp only [Bool.false_eq_true, if_false, Repo.merge] at h
  cases hb : o.beforeMergeCallback dn wn with
  | error e => rw [hb] at h; simp at h
  | ok u =>
    rw [hb] at h
    cases hp : o.postDevelopMergeCallback r.freshOid with
    | error e => rw [hp] at h; simp at h
    | ok oid =>
      rw [hp] at h
      simp only [Prod.mk.injEq, Except.ok.injEq] at h
      exact ⟨oid, rfl, h.2.2.symm, by simp [Repo.merge, h.1], h.2.1.symm⟩

theorem developMergeStep_events (r : RepoState) (o : FinishOptions) (dn wn : String)
    (c : Bool) (r1 : RepoState) (t1 : List Event) (e : Except FlowError (Option Oid))
    (h : developMergeStep r o dn wn c = (r1, t1, e)) :
    r1.tags = r.tags ∧ r1.headBranch = r.headBranch ∧
    (t1 = [] ∨ t1 = [Event.beforeMergeCallback dn wn] ∨
     t1 = [Event.beforeMergeCallback dn wn, Event.mergeOp dn wn,
           Event.postDevelopMergeCallback r.freshOid]) := by
  unfold developMergeStep at h
  cases c with
  | true =>
    simp only [if_true] at h
    simp only [Prod.mk.injEq] at h
    refine ⟨by rw [← h.1], by rw [← h.1], Or.inl h.2.1.symm⟩
  | false =>
    simp only [Bool.false_eq_true, if_false, Repo.merge] at h
    cases hb : o.beforeMergeCallback dn wn with
    | error e2 =>
      rw [hb] at h
      simp only [Prod.mk.injEq] at h
      refine ⟨by rw [← h.1], by rw [← h.1], Or.inr (Or.inl h.2.1.symm)⟩
    | ok u =>
      rw [hb] at h
      cases hp : o.postDevelopMergeCallback r.freshOid with
      | error e2 =>
        rw [hp] at h
        simp only [Prod.mk.injEq] at h
        exact ⟨by rw [← h.1], by rw [← h.1], Or.inr (Or.inr h.2.1.symm)⟩
      | ok oid =>
        rw [hp] at h
        simp only [Prod.mk.injEq] at h
        exact ⟨by rw [← h.1], by rw [← h.1], Or.inr (Or.inr h.2.1.symm)⟩

theorem masterMergeTagStep_cancel (r : RepoState) (o : FinishOptions)
    (mn wn tn : String) (m : Oid) :
    masterMergeTagStep r o mn wn tn m true =
      (Tag.create r m tn, [Event.tagCreate tn m], Except.ok ()) := rfl

theorem masterMergeTagStep_ok_shape (r : RepoState) (o : FinishOptions)
    (mn wn tn : String) (m : Oid) (r2 : RepoState) (t2 : List Event) (u : Unit)
    (h : masterMergeTagStep r o mn wn tn m false = (r2, t2, Except.ok u)) :
    ∃ oid, o.postMasterMergeCallback r.freshOid = Except.ok oid ∧
      r2 = Tag.create (Repo.merge r mn).1 oid tn ∧
      t2 = [Event.beforeMergeCallback mn wn, Event.mergeOp mn wn,
            Event.postMasterMergeCallback r.freshOid, Event.tagCreate tn oid] := by
  unfold masterMergeTagStep at h
  simp only [Bool.false_eq_true, if_false, Repo.merge] at h
  cases hb : o.beforeMergeCallback mn wn with
  | error e => rw [hb] at h; simp at h
  | ok v =>
    rw [hb] at h
    cases hp : o.postMasterMergeCallback r.freshOid with
    | error e => rw [hp] at h; simp at h
    | ok oid =>
      rw [hp] at h
      simp only [Prod.mk.injEq] at h
      exact ⟨oid, rfl, by simp [Tag.create, Repo.merge, ← h.1], h.2.1.symm⟩

theorem masterMergeTagStep_events (r : RepoState) (o : FinishOptions)
    (mn wn tn : String) (m : Oid) (c : Bool) (r2 : RepoState) (t2 : List Event)
    (e : Except FlowError Unit)
    (h : masterMergeTagStep r o mn wn tn m c = (r2, t2, e)) :
    r2.headBranch = r.headBranch ∧
    (t2 = [Event.tagCreate tn m] ∨ t2 = [Event.beforeMergeCallback mn wn] ∨
     t2 = [Event.beforeMergeCallback mn wn, Event.mergeOp mn wn,
           Event.postMasterMergeCallback r.freshOid] ∨
     ∃ oid, t2 = [Event.beforeMergeCallback mn wn, Event.mergeOp mn wn,
                  Event.postMasterMergeCallback r.freshOid, Event.tagCreate tn oid]) := by
  unfold masterMergeTagStep at h
  cases c with
  | true =>
    simp only [if_true] at h
    simp only [Prod.mk.injEq] at h
    exact ⟨by rw [← h.1]; rfl, Or.inl h.2.1.symm⟩
  | false =>
    simp only [Bool.false_eq_true, if_false, Repo.merge] at h
    cases hb : o.beforeMergeCallback mn wn with
    | error e2 =>
      rw [hb] at h
      simp only [Prod.mk.injEq] at h
      exact ⟨by rw [← h.1], Or.inr (Or.inl h.2.1.symm)⟩
    | ok v =>
      rw [hb] at h
      cases hp : o.postMasterMergeCallback r.freshOid with
      | error e2 =>
        rw [hp] at h
        simp only [Prod.mk.injEq] at h
        exact ⟨by rw [← h.1], Or.inr (Or.inr (Or.inl h.2.1.symm))⟩
      | ok oid =>
        rw [hp] at h
        simp only [Prod.mk.injEq] at h
        exact ⟨by rw [← h.1]; rfl, Or.inr (Or.inr (Or.inr ⟨oid, h.2.1.symm⟩))⟩

theorem cleanupStep_keep (r : RepoState) (o : FinishOptions) (wn mn : String)
    (hk : o.keepBranch = true) : cleanupStep r o wn mn = (r, [], Except.ok ()) := by
  unfold cleanupStep
  rw [hk]
  rfl

theorem cleanupStep_delete_shape (r : RepoState) (o : FinishOptions) (wn mn : String)
    (r3 : RepoState) (t3 : List Event) (u : Unit)
    (hk : o.keepBranch = false)
    (h : cleanupStep r o wn mn = (r3, t3, Except.ok u)) :
    lookupBranch r3 wn = none ∧ r3.tags = r.tags ∧
    (r.headBranch = wn →
        r3.headBranch = mn ∧
        t3 = [Event.checkout mn,
              Event.postCheckoutHook r.headTarget
                (RepoState.headTarget { r with headBranch := mn }),
              Event.branchDelete wn]) ∧
    (r.headBranch ≠ wn → r3.headBranch = r.headBranch ∧ t3 = [Event.branchDelete wn]) := by
  unfold cleanupStep at h
  rw [hk] at h
  simp only [Bool.false_eq_true, if_false] at h
  simp only [Repo.safelyDeleteBranch] at h
  by_cases hh : r.headBranch = wn
  · rw [if_pos (by simpa using hh)] at h
    cases hc : o.postCheckoutHook r.headTarget
        (RepoState.headTarget { r with headBranch := mn }) with
    | error e => rw [hc] at h; simp at h
    | ok v =>
      rw [hc] at h
      simp only [Prod.mk.injEq] at h
      refine ⟨?_, ?_, fun _ => ⟨?_, h.2.1.symm⟩, fun hcon => absurd hh hcon⟩
      · rw [← h.1]; exact lookupBranch_deleteBranch _ wn
      · rw [← h.1]; rfl
      · rw [← h.1]; rfl
  · rw [if_neg (by simpa using hh)] at h
    simp only [Prod.mk.injEq] at h
    refine ⟨?_, ?_, fun hcon => absurd hcon hh, fun _ => ⟨?_, h.2.1.symm⟩⟩
    · rw [← h.1]; exact lookupBranch_deleteBranch _ wn
    · rw [← h.1]; rfl
    · rw [← h.1]; rfl

theorem cleanupStep_events (r : RepoState) (o : FinishOptions) (wn mn : String)
    (r3 : RepoState) (t3 : List Event) (e : Except FlowError Unit)
    (h : cleanupStep r o wn mn = (r3, t3, e)) :
    r3.tags = r.tags ∧
    (t3 = [] ∨ t3 = [Event.branchDelete wn] ∨
     (∃ a b, t3 = [Event.checkout mn, Event.postCheckoutHook a b]) ∨
     (∃ a b, t3 = [Event.checkout mn, Event.postCheckoutHook a b,
                   Event.branchDelete wn])) := by
  unfold cleanupStep at h
  cases hk : o.keepBranch with
  | true =>
    rw [hk] at h
    simp only [if_true, Prod.mk.injEq] at h
    exact ⟨by rw [← h.1], Or.inl h.2.1.symm⟩
  | false =>
    rw [hk] at h
    simp only [Bool.false_eq_true, if_false] at h
    simp only [Repo.safelyDeleteBranch] at h
    by_cases hh : r.headBranch = wn
    · rw [if_pos (by simpa using hh)] at h
      cases hc : o.postCheckoutHook r.headTarget
          (RepoState.headTarget { r with headBranch := mn }) with
      | error e2 =>
        rw [hc] at h
        simp only [Prod.mk.injEq] at h
        exact ⟨by rw [← h.1], Or.inr (Or.inr (Or.inl ⟨_, _, h.2.1.symm⟩))⟩
      | ok v =>
        rw [hc] at h
        simp only [Prod.mk.injEq] at h
        exact ⟨by rw [← h.1]; rfl, Or.inr (Or.inr (Or.inr ⟨_, _, h.2.1.symm⟩))⟩
    · rw [if_neg (by simpa using hh)] at h
      simp only [Prod.mk.injEq] at h
      exact ⟨by rw [← h.1]; rfl, Or.inr (Or.inl h.2.1.symm)⟩

theorem finishCore_ok_shape (sel : GitflowConfig → String) (r : RepoState)
    (v : String) (opts : FinishOptions) (d w m : Oid) (out : Option Oid)
    (hd : lookupBranch r r.config.branchDevelop = some d)
    (hw : lookupBranch r (sel r.config ++ v) = some w)
    (hm : lookupBranch r r.config.branchMaster = some m)
    (hok : (finishCore sel (some r) v opts).outcome = Except.ok out) :
    ∃ r1 t1 r2 t2 r3 t3,
      developMergeStep r opts r.config.branchDevelop (sel r.config ++ v)
          (opts.onlyMaster || d == w) = (r1, t1, Except.ok out) ∧
      masterMergeTagStep r1 opts r.config.branchMaster (sel r.config ++ v)
          (r.config.prefVersiontag ++ v) m (m == w) = (r2, t2, Except.ok ()) ∧
      cleanupStep r2 opts (sel r.config ++ v) r.config.branchMaster =
          (r3, t3, Except.ok ()) ∧
      finishCore sel (some r) v opts =
        ⟨some r3,
         [Event.configRead, Event.branchLookup r.config.branchDevelop,
          Event.branchLookup (sel r.config ++ v), Event.branchLookup r.config.branchMaster,
          Event.commitLookup d, Event.commitLookup w, Event.commitLookup m] ++
           t1 ++ t2 ++ t3,
         Except.ok out⟩ := by
  by_cases hv : v = ""
  · subst hv
    simp [finishCore] at hok
  · simp only [finishCore, getConfig, if_neg hv, hd, hw, hm] at hok ⊢
    rcases hdev : developMergeStep r opts r.config.branchDevelop (sel r.config ++ v)
        (opts.onlyMaster || d == w) with ⟨r1, t1, e1⟩
    cases e1 with
    | error e =>
      simp only [hdev] at hok
      simp at hok
    | ok mo =>
      simp only [hdev] at hok ⊢
      rcases hmst : masterMergeTagStep r1 opts r.config.branchMaster (sel r.config ++ v)
          (r.config.prefVersiontag ++ v) m (m == w) with ⟨r2, t2, e2⟩
      cases e2 with
      | error e =>
        simp only [hmst] at hok
        simp at hok
      | ok u =>
        simp only [hmst] at hok ⊢
        rcases hclean : cleanupStep r2 opts (sel r.config ++ v) r.config.branchMaster
            with ⟨r3, t3, e3⟩
        cases e3 with
        | error e =>
          simp only [hclean] at hok
          simp at hok
        | ok u2 =>
          simp only [hclean] at hok ⊢
          simp only [Except.ok.injEq] at hok
          subst hok
          exact ⟨r1, t1, r2, t2, r3, t3, rfl, hmst, hclean, rfl⟩

theorem startCheckoutStep_shape (r : RepoState) (hook : Oid → Oid → Except String Unit)
    (bn : String) (c : Oid) (t0 : List Event) :
    ∃ r2 a b out,
      startCheckoutStep r hook bn c t0 =
        ⟨some r2, t0 ++ [Event.createBranch bn c, Event.checkout bn,
                         Event.postCheckoutHook a b], out⟩ ∧
      r2.branches = r.branches ++ [(bn, c)] ∧ r2.headBranch = bn ∧ r2.tags = r.tags ∧
      (hook a b = Except.ok () → out = Except.ok (bn, c)) ∧
      (∀ e, hook a b = Except.error e → out = Except.error (FlowError.hookError e)) := by
  simp only [startCheckoutStep]
  split
  next e he =>
    refine ⟨_, _, _, _, rfl, rfl, rfl, rfl, ?_, ?_⟩
    · intro h
      rw [he] at h
      simp at h
    · intro e2 h
      rw [he] at h
      simp only [Except.error.injEq] at h
      rw [h]
  next u he =>
    refine ⟨_, _, _, _, rfl, rfl, rfl, rfl, ?_, ?_⟩
    · intro h
      rfl
    · intro e2 h
      rw [he] at h
      simp at h

/-! Claim theorems. -/

/-- C7: a start or finish call with an absent repository handle fails with
MissingRepository, and a call with an empty version string fails with
MissingVersion, in every case before any config read, lookup or other side
effect: the trace is empty and the repository state is unchanged. -/
theorem missing_input_guards (v : String) (so : StartOptions) (fo : FinishOptions)
    (r : RepoState) :
    startRelease none v so = ⟨none, [], Except.error FlowError.missingRepository⟩ ∧
    startHotfix none v so = ⟨none, [], Except.error FlowError.missingRepository⟩ ∧
    finishRelease none v fo = ⟨none, [], Except.error FlowError.missingRepository⟩ ∧
    finishHotfix none v fo = ⟨none, [], Except.error FlowError.missingRepository⟩ ∧
    startRelease (some r) "" so = ⟨some r, [], Except.error FlowError.missingVersion⟩ ∧
    startHotfix (some r) "" so = ⟨some r, [], Except.error FlowError.missingVersion⟩ ∧
    finishRelease (some r) "" fo = ⟨some r, [], Except.error FlowError.missingVersion⟩ ∧
    finishHotfix (some r) "" fo = ⟨some r, [], Except.error FlowError.missingVersion⟩ :=
  ⟨rfl, rfl, rfl, rfl, rfl, rfl, rfl, rfl⟩

/-- C8: every callback hook accepted by finish is optional and defaults to a
no-op (the identity for the merge-outcome transformers): a finish call that
omits every hook equals the same call with each hook passed explicitly as that
no-op. -/
theorem finish_hooks_default_noop (repo : Option RepoState) (v : String)
    (k : Bool) (msg : String) (om : Bool) :
    finishRelease repo v { keepBranch := k, message := msg, onlyMaster := om } =
      finishRelease repo v
        { keepBranch := k, message := msg, onlyMaster := om,
          processMergeMessageCallback := none,
          beforeMergeCallback := fun _ _ => Except.ok (),
          postDevelopMergeCallback := fun o => Except.ok o,
          postMasterMergeCallback := fun o => Except.ok o,
          postCheckoutHook := fun _ _ => Except.ok (),
          signingCallback := none } ∧
    finishHotfix repo v { keepBranch := k, message := msg, onlyMaster := om } =
      finishHotfix repo v
        { keepBranch := k, message := msg, onlyMaster := om,
          processMergeMessageCallback := none,
          beforeMergeCallback := fun _ _ => Except.ok (),
          postDevelopMergeCallback := fun o => Except.ok o,
          postMasterMergeCallback := fun o => Except.ok o,
          postCheckoutHook := fun _ _ => Except.ok (),
          signingCallback := none } :=
  ⟨rfl, rfl⟩

/-- C4 counterexample: a startHotfix call with sha 42 supplied still creates
the hotfix branch at the master target commit 1, not at 42, so the claim that
a supplied sha is resolved directly for every start call fails on startHotfix. -/
theorem start_sha_counterexample :
    (startHotfix (some sampleRepo) "2.0" { sha := some 42 }).outcome =
      Except.ok ("hotfix/2.0", 1) ∧ (1 : Oid) ≠ 42 :=
  ⟨rfl, by decide⟩

/-- C4 (amended): for startRelease the starting commit is the sha when that
option is supplied and the target commit of the configured develop branch
otherwise; for startHotfix the sha option is ignored and the starting commit is
always the target commit of the configured master branch; in each case a
branch named from the configured stem plus the version is created at that
commit, checked out, and returned on success. -/
theorem start_starting_commit (r : RepoState) (v : String) (so : StartOptions)
    (dOid mOid : Oid) (hv : v ≠ "")
    (hhook : ∀ a b, so.postCheckoutHook a b = Except.ok ())
    (hd : lookupBranch r r.config.branchDevelop = some dOid)
    (hm : lookupBranch r r.config.branchMaster = some mOid) :
    (∀ sha, so.sha = some sha →
        (startRelease (some r) v so).outcome = Except.ok (r.config.prefRelease ++ v, sha) ∧
        ∃ r2, (startRelease (some r) v so).repo = some r2 ∧
          r2.branches = r.branches ++ [(r.config.prefRelease ++ v, sha)] ∧
          r2.headBranch = r.config.prefRelease ++ v) ∧
    (so.sha = none →
        (startRelease (some r) v so).outcome = Except.ok (r.config.prefRelease ++ v, dOid) ∧
        ∃ r2, (startRelease (some r) v so).repo = some r2 ∧
          r2.branches = r.branches ++ [(r.config.prefRelease ++ v, dOid)] ∧
          r2.headBranch = r.config.prefRelease ++ v) ∧
    ((startHotfix (some r) v so).outcome = Except.ok (r.config.prefHotfix ++ v, mOid) ∧
     ∃ r2, (startHotfix (some r) v so).repo = some r2 ∧
       r2.branches = r.branches ++ [(r.config.prefHotfix ++ v, mOid)] ∧
       r2.headBranch = r.config.prefHotfix ++ v) := by
  refine ⟨?_, ?_, ?_⟩
  · intro sha hsha
    obtain ⟨r2, a, b, out, heq, hbr, hhd, htags, hok2, herr⟩ :=
      startCheckoutStep_shape r so.postCheckoutHook (r.config.prefRelease ++ v) sha
        [Event.configRead, Event.commitLookup sha]
    simp only [startRelease, getConfig, if_neg hv, hsha, heq]
    exact ⟨hok2 (hhook a b), r2, rfl, hbr, hhd⟩
  · intro hsha
    obtain ⟨r2, a, b, out, heq, hbr, hhd, htags, hok2, herr⟩ :=
      startCheckoutStep_shape r so.postCheckoutHook (r.config.prefRelease ++ v) dOid
        [Event.configRead, Event.branchLookup r.config.branchDevelop,
         Event.commitLookup dOid]
    simp only [startRelease, getConfig, if_neg hv, hsha, hd, heq]
    exact ⟨hok2 (hhook a b), r2, rfl, hbr, hhd⟩
  · obtain ⟨r2, a, b, out, heq, hbr, hhd, htags, hok2, herr⟩ :=
      startCheckoutStep_shape r so.postCheckoutHook (r.config.prefHotfix ++ v) mOid
        [Event.configRead, Event.branchLookup r.config.branchMaster,
         Event.commitLookup mOid]
    simp only [startHotfix, getConfig, if_neg hv, hm, heq]
    exact ⟨hok2 (hhook a b), r2, rfl, hbr, hhd⟩

/-- C4 witness: the amended theorem applied to the sample repository, where
startRelease without sha starts from develop commit 2 and startHotfix starts
from master commit 1. -/
theorem start_starting_commit_witness :
    (startRelease (some sampleRepo) "2.0" {}).outcome = Except.ok ("release/2.0", 2) ∧
    (startHotfix (some sampleRepo) "2.0" {}).outcome = Except.ok ("hotfix/2.0", 1) := by
  have h := start_starting_commit sampleRepo "2.0" {} 2 1 (by decide)
    (fun a b => rfl) rfl rfl
  exact ⟨(h.2.1 rfl).1, h.2.2.1⟩

/-- C10: when postCheckoutHook rejects, the whole start call (release or
hotfix alike) fails with that hook error, but the workflow branch has already
been created and checked out and is not rolled back: the final state still
contains it and HEAD points at it. -/
theorem start_hook_failure_keeps_branch (r : RepoState) (v : String) (e : String)
    (so : StartOptions) (dOid mOid : Oid) (hv : v ≠ "")
    (hhook : ∀ a b, so.postCheckoutHook a b = Except.error e)
    (hd : lookupBranch r r.config.branchDevelop = some dOid)
    (hm : lookupBranch r r.config.branchMaster = some mOid) :
    ((startRelease (some r) v so).outcome = Except.error (FlowError.hookError e) ∧
     ∃ r2 c, (startRelease (some r) v so).repo = some r2 ∧
       r2.branches = r.branches ++ [(r.config.prefRelease ++ v, c)] ∧
       r2.headBranch = r.config.prefRelease ++ v ∧
       Event.createBranch (r.config.prefRelease ++ v) c ∈ (startRelease (some r) v so).trace ∧
       Event.checkout (r.config.prefRelease ++ v) ∈ (startRelease (some r) v so).trace) ∧
    ((startHotfix (some r) v so).outcome = Except.error (FlowError.hookError e) ∧
     ∃ r2, (startHotfix (some r) v so).repo = some r2 ∧
       r2.branches = r.branches ++ [(r.config.prefHotfix ++ v, mOid)] ∧
       r2.headBranch = r.config.prefHotfix ++ v ∧
       Event.createBranch (r.config.prefHotfix ++ v) mOid ∈ (startHotfix (some r) v so).trace ∧
       Event.checkout (r.config.prefHotfix ++ v) ∈ (startHotfix (some r) v so).trace) := by
  constructor
  · cases hsha : so.sha with
    | some sha =>
      obtain ⟨r2, a, b, out, heq, hbr, hhd, htags, hok2, herr⟩ :=
        startCheckoutStep_shape r so.postCheckoutHook (r.config.prefRelease ++ v) sha
          [Event.configRead, Event.commitLookup sha]
      simp only [startRelease, getConfig, if_neg hv, hsha, heq]
      refine ⟨herr e (hhook a b), r2, sha, rfl, hbr, hhd, ?_, ?_⟩ <;> simp
    | none =>
      obtain ⟨r2, a, b, out, heq, hbr, hhd, htags, hok2, herr⟩ :=
        startCheckoutStep_shape r so.postCheckoutHook (r.config.prefRelease ++ v) dOid
          [Event.configRead, Event.branchLookup r.config.branchDevelop,
           Event.commitLookup dOid]
      simp only [startRelease, getConfig, if_neg hv, hsha, hd, heq]
      refine ⟨herr e (hhook a b), r2, dOid, rfl, hbr, hhd, ?_, ?_⟩ <;> simp
  · obtain ⟨r2, a, b, out, heq, hbr, hhd, htags, hok2, herr⟩ :=
      startCheckoutStep_shape r so.postCheckoutHook (r.config.prefHotfix ++ v) mOid
        [Event.configRead, Event.branchLookup r.config.branchMaster,
         Event.commitLookup mOid]
    simp only [startHotfix, getConfig, if_neg hv, hm, heq]
    refine ⟨herr e (hhook a b), r2, rfl, hbr, hhd, ?_, ?_⟩ <;> simp

/-- C10 witness: the theorem applied to the sample repository with a hook that
always rejects. -/
theorem start_hook_failure_witness :
    (startRelease (some sampleRepo) "2.0"
        { postCheckoutHook := fun _ _ => Except.error "boom" }).outcome =
      Except.error (FlowError.hookError "boom") ∧
    (startHotfix (some sampleRepo) "2.0"
        { postCheckoutHook := fun _ _ => Except.error "boom" }).outcome =
      Except.error (FlowError.hookError "boom") := by
  have h := start_hook_failure_keeps_branch sampleRepo "2.0" "boom"
    { postCheckoutHook := fun _ _ => Except.error "boom" } 2 1 (by decide)
    (fun a b => rfl) rfl rfl
  exact ⟨h.1.1, h.2.1⟩

/-- C1: in every successful finish call (release or hotfix, both run through
finishCore), the develop merge is performed iff onlyMaster is false and the
develop and workflow commits differ, and the master merge is performed iff the
master and workflow commits differ; in particular onlyMaster suppresses the
develop merge even when those commits differ. -/
theorem finish_merge_cancellation (sel : GitflowConfig → String) (r : RepoState)
    (v : String) (opts : FinishOptions) (d w m : Oid) (out : Option Oid)
    (hnames : r.config.branchDevelop ≠ r.config.branchMaster)
    (hd : lookupBranch r r.config.branchDevelop = some d)
    (hw : lookupBranch r (sel r.config ++ v) = some w)
    (hm : lookupBranch r r.config.branchMaster = some m)
    (hok : (finishCore sel (some r) v opts).outcome = Except.ok out) :
    (Event.mergeOp r.config.branchDevelop (sel r.config ++ v) ∈
        (finishCore sel (some r) v opts).trace ↔
      (opts.onlyMaster = false ∧ d ≠ w)) ∧
    (Event.mergeOp r.config.branchMaster (sel r.config ++ v) ∈
        (finishCore sel (some r) v opts).trace ↔ m ≠ w) := by
  obtain ⟨r1, t1, r2, t2, r3, t3, hdev, hmst, hclean, hfc⟩ :=
    finishCore_ok_shape sel r v opts d w m out hd hw hm hok
  have hd1 := developMergeStep_events r opts r.config.branchDevelop (sel r.config ++ v)
    (opts.onlyMaster || d == w) r1 t1 (Except.ok out) hdev
  have hm2 := masterMergeTagStep_events r1 opts r.config.branchMaster (sel r.config ++ v)
    (r.config.prefVersiontag ++ v) m (m == w) r2 t2 (Except.ok ()) hmst
  have hc3 := (cleanupStep_events r2 opts (sel r.config ++ v) r.config.branchMaster
    r3 t3 (Except.ok ()) hclean).2
  have hnotd2 : Event.mergeOp r.config.branchDevelop (sel r.config ++ v) ∉ t2 := by
    rcases hm2.2 with h | h | h | ⟨oid, h⟩ <;> subst h <;> simp [hnames]
  have hnotm1 : Event.mergeOp r.config.branchMaster (sel r.config ++ v) ∉ t1 := by
    rcases hd1.2.2 with h | h | h <;> subst h <;> simp [Ne.symm hnames]
  have hnot3 : ∀ a b, Event.mergeOp a b ∉ t3 := by
    intro a b
    rcases hc3 with h | h | ⟨x, y, h⟩ | ⟨x, y, h⟩ <;> subst h <;> simp
  rw [hfc]
  constructor
  · cases hcd : (opts.onlyMaster || d == w) with
    | true =>
      rw [hcd] at hdev
      have h0 := (developMergeStep_cancel r opts r.config.branchDevelop
        (sel r.config ++ v)).symm.trans hdev
      simp only [Prod.mk.injEq, Except.ok.injEq] at h0
      have ht1 : t1 = [] := h0.2.1.symm
      subst ht1
      simp only [Bool.or_eq_true, beq_iff_eq] at hcd
      rcases hcd with hOM | hdw
      · simp [List.mem_append, hnotd2, hnot3, hOM]
      · simp [List.mem_append, hnotd2, hnot3, hdw]
    | false =>
      rw [hcd] at hdev
      obtain ⟨oid, hp, hmo, hr1, ht1⟩ :=
        developMergeStep_ok_shape r opts r.config.branchDevelop (sel r.config ++ v)
          r1 t1 out hdev
      subst ht1
      simp only [Bool.or_eq_false_iff, beq_eq_false_iff_ne] at hcd
      simp [List.mem_append, hcd.1, hcd.2]
  · cases hcm : (m == w) with
    | true =>
      rw [hcm] at hmst
      have h0 := (masterMergeTagStep_cancel r1 opts r.config.branchMaster
        (sel r.config ++ v) (r.config.prefVersiontag ++ v) m).symm.trans hmst
      simp only [Prod.mk.injEq] at h0
      have ht2 : t2 = [Event.tagCreate (r.config.prefVersiontag ++ v) m] := h0.2.1.symm
      subst ht2
      have hmw : m = w := by simpa using hcm
      simp [List.mem_append, hnotm1, hnot3, hmw]
    | false =>
      rw [hcm] at hmst
      obtain ⟨oid, hp, hr2, ht2⟩ :=
        masterMergeTagStep_ok_shape r1 opts r.config.branchMaster (sel r.config ++ v)
          (r.config.prefVersiontag ++ v) m r2 t2 () hmst
      subst ht2
      have hmw : m ≠ w := by simpa using hcm
      simp [List.mem_append, hmw]

/-- C1 witness: on the sample repository with default options both merges are
performed, and their events appear in the trace. -/
theorem finish_merge_cancellation_witness :
    Event.mergeOp "develop" "release/1.0" ∈
      (finishRelease (some sampleRepo) "1.0" {}).trace ∧
    Event.mergeOp "master" "release/1.0" ∈
      (finishRelease (some sampleRepo) "1.0" {}).trace := by
  have h := finish_merge_cancellation (fun config => config.prefRelease) sampleRepo "1.0"
    {} 2 3 1 (some 10) (by decide) rfl rfl rfl rfl
  exact ⟨h.1.mpr ⟨rfl, by decide⟩, h.2.mpr (by decide)⟩

/-- C2: in every successful finish call the resolved value is the develop
merge outcome: the no-merge indicator when the develop merge was cancelled,
in which case postDevelopMergeCallback is never invoked, and otherwise the
develop merge commit as transformed by postDevelopMergeCallback; it is never
the master merge commit or the tag. -/
theorem finish_result_is_develop_outcome (sel : GitflowConfig → String) (r : RepoState)
    (v : String) (opts : FinishOptions) (d w m : Oid) (out : Option Oid)
    (hd : lookupBranch r r.config.branchDevelop = some d)
    (hw : lookupBranch r (sel r.config ++ v) = some w)
    (hm : lookupBranch r r.config.branchMaster = some m)
    (hok : (finishCore sel (some r) v opts).outcome = Except.ok out) :
    ((opts.onlyMaster = true ∨ d = w) →
        out = none ∧
        ∀ x, Event.postDevelopMergeCallback x ∉ (finishCore sel (some r) v opts).trace) ∧
    ((opts.onlyMaster = false ∧ d ≠ w) →
        ∃ oid, opts.postDevelopMergeCallback r.freshOid = Except.ok oid ∧
          out = some oid) := by
  obtain ⟨r1, t1, r2, t2, r3, t3, hdev, hmst, hclean, hfc⟩ :=
    finishCore_ok_shape sel r v opts d w m out hd hw hm hok
  have hm2 := masterMergeTagStep_events r1 opts r.config.branchMaster (sel r.config ++ v)
    (r.config.prefVersiontag ++ v) m (m == w) r2 t2 (Except.ok ()) hmst
  have hc3 := (cleanupStep_events r2 opts (sel r.config ++ v) r.config.branchMaster
    r3 t3 (Except.ok ()) hclean).2
  have hnot2 : ∀ x, Event.postDevelopMergeCallback x ∉ t2 := by
    intro x
    rcases hm2.2 with h | h | h | ⟨oid, h⟩ <;> subst h <;> simp
  have hnot3 : ∀ x, Event.postDevelopMergeCallback x ∉ t3 := by
    intro x
    rcases hc3 with h | h | ⟨y, z, h⟩ | ⟨y, z, h⟩ <;> subst h <;> simp
  constructor
  · intro hcancel
    have hcd : (opts.onlyMaster || d == w) = true := by
      rcases hcancel with h | h <;> simp [h]
    rw [hcd] at hdev
    have h0 := (developMergeStep_cancel r opts r.config.branchDevelop
      (sel r.config ++ v)).symm.trans hdev
    simp only [Prod.mk.injEq, Except.ok.injEq] at h0
    have ht1 : t1 = [] := h0.2.1.symm
    subst ht1
    refine ⟨h0.2.2.symm, fun x => ?_⟩
    rw [hfc]
    simp [List.mem_append, hnot2 x, hnot3 x]
  · intro hgo
    have hcd : (opts.onlyMaster || d == w) = false := by
      simp [hgo.1, hgo.2]
    rw [hcd] at hdev
    obtain ⟨oid, hp, hmo, hr1, ht1⟩ :=
      developMergeStep_ok_shape r opts r.config.branchDevelop (sel r.config ++ v)
        r1 t1 out hdev
    exact ⟨oid, hp, hmo⟩

/-- C2 witness: on the sample repository with default options the develop
merge is performed and the call resolves to the identity-transformed develop
merge commit. -/
theorem finish_result_is_develop_outcome_witness :
    ∃ oid, ({} : FinishOptions).postDevelopMergeCallback sampleRepo.freshOid =
        Except.ok oid ∧ (some 10 : Option Oid) = some oid := by
  have h := finish_result_is_develop_outcome (fun config => config.prefRelease)
    sampleRepo "1.0" {} 2 3 1 (some 10) rfl rfl rfl rfl
  exact h.2 ⟨rfl, by decide⟩

/-- C3: every successful finish call appends exactly one tag, named
prefVersiontag ++ version: at the existing master commit when the master merge
is cancelled, and otherwise at the master merge commit as transformed by
postMasterMergeCallback (that merge commit is the first fresh id when the
develop merge was cancelled and the next one otherwise). -/
theorem finish_tag_exactly_once (sel : GitflowConfig → String) (r : RepoState)
    (v : String) (opts : FinishOptions) (d w m : Oid) (out : Option Oid)
    (hd : lookupBranch r r.config.branchDevelop = some d)
    (hw : lookupBranch r (sel r.config ++ v) = some w)
    (hm : lookupBranch r r.config.branchMaster = some m)
    (hok : (finishCore sel (some r) v opts).outcome = Except.ok out) :
    ∃ r3 o, (finishCore sel (some r) v opts).repo = some r3 ∧
      r3.tags = r.tags ++ [(r.config.prefVersiontag ++ v, o)] ∧
      (m = w → o = m) ∧
      (m ≠ w → opts.postMasterMergeCallback
          (if opts.onlyMaster || d == w then r.freshOid else r.freshOid + 1) =
        Except.ok o) := by
  obtain ⟨r1, t1, r2, t2, r3, t3, hdev, hmst, hclean, hfc⟩ :=
    finishCore_ok_shape sel r v opts d w m out hd hw hm hok
  have hd1 := developMergeStep_events r opts r.config.branchDevelop (sel r.config ++ v)
    (opts.onlyMaster || d == w) r1 t1 (Except.ok out) hdev
  have hc1 := (cleanupStep_events r2 opts (sel r.config ++ v) r.config.branchMaster
    r3 t3 (Except.ok ()) hclean).1
  have hfr : r1.freshOid =
      (if opts.onlyMaster || d == w then r.freshOid else r.freshOid + 1) := by
    cases hcd : (opts.onlyMaster || d == w) with
    | true =>
      rw [hcd] at hdev
      have h0 := (developMergeStep_cancel r opts r.config.branchDevelop
        (sel r.config ++ v)).symm.trans hdev
      simp only [Prod.mk.injEq] at h0
      rw [← h0.1]
      simp
    | false =>
      rw [hcd] at hdev
      obtain ⟨oid, hp, hmo, hr1, ht1⟩ :=
        developMergeStep_ok_shape r opts r.config.branchDevelop (sel r.config ++ v)
          r1 t1 out hdev
      rw [hr1]
      simp [Repo.merge]
  cases hcm : (m == w) with
  | true =>
    rw [hcm] at hmst
    have h0 := (masterMergeTagStep_cancel r1 opts r.config.branchMaster
      (sel r.config ++ v) (r.config.prefVersiontag ++ v) m).symm.trans hmst
    simp only [Prod.mk.injEq] at h0
    have hmw : m = w := by simpa using hcm
    refine ⟨r3, m, by rw [hfc], ?_, fun _ => rfl, fun hne => absurd hmw hne⟩
    rw [hc1, ← h0.1]
    show r1.tags ++ _ = _
    rw [hd1.1]
  | false =>
    rw [hcm] at hmst
    obtain ⟨oid, hp, hr2, ht2⟩ :=
      masterMergeTagStep_ok_shape r1 opts r.config.branchMaster (sel r.config ++ v)
        (r.config.prefVersiontag ++ v) m r2 t2 () hmst
    have hmw : m ≠ w := by simpa using hcm
    refine ⟨r3, oid, by rw [hfc], ?_, fun heq => absurd heq hmw, fun _ => ?_⟩
    · rw [hc1, hr2]
      show (Repo.merge r1 r.config.branchMaster).1.tags ++ _ = _
      show r1.tags ++ _ = _
      rw [hd1.1]
    · rw [← hfr]
      exact hp

/-- C3 witness: on the sample repository with default options exactly the tag
v1.0 at the master merge commit 11 is appended. -/
theorem finish_tag_exactly_once_witness :
    ∃ r3 o, (finishRelease (some sampleRepo) "1.0" {}).repo = some r3 ∧
      r3.tags = sampleRepo.tags ++ [("v" ++ "1.0", o)] := by
  obtain ⟨r3, o, hrepo, htags, hcm, hgo⟩ := finish_tag_exactly_once
    (fun config => config.prefRelease) sampleRepo "1.0" {} 2 3 1 (some 10)
    rfl rfl rfl rfl
  exact ⟨r3, o, hrepo, htags⟩

theorem isSome_map_eq {α β : Type} (x : Option α) (f : α → β) :
    (x.map f).isSome = x.isSome := by
  cases x <;> rfl

theorem lookupBranch_merge_isSome (r : RepoState) (bn n : String) :
    (lookupBranch (Repo.merge r bn).1 n).isSome = (lookupBranch r n).isSome := by
  unfold lookupBranch
  simp only [Repo.merge]
  rw [isSome_map_eq, isSome_map_eq]
  exact find?_setBranch_isSome r.branches bn r.freshOid n

/-- C5: in every successful finish call with keepBranch false, the workflow
branch no longer resolves afterward, and deletion is safe: when HEAD pointed
at the workflow branch, the master branch is checked out first with
postCheckoutHook invoked on the old and new HEAD targets before the deletion;
with keepBranch true the workflow branch still resolves. -/
theorem finish_cleanup_branch_deletion (sel : GitflowConfig → String) (r : RepoState)
    (v : String) (opts : FinishOptions) (d w m : Oid) (out : Option Oid)
    (hd : lookupBranch r r.config.branchDevelop = some d)
    (hw : lookupBranch r (sel r.config ++ v) = some w)
    (hm : lookupBranch r r.config.branchMaster = some m)
    (hok : (finishCore sel (some r) v opts).outcome = Except.ok out) :
    ∃ r3, (finishCore sel (some r) v opts).repo = some r3 ∧
      (opts.keepBranch = false →
        lookupBranch r3 (sel r.config ++ v) = none ∧
        (r.headBranch = sel r.config ++ v →
          r3.headBranch = r.config.branchMaster ∧
          ∃ a b, List.Sublist
            [Event.checkout r.config.branchMaster, Event.postCheckoutHook a b,
             Event.branchDelete (sel r.config ++ v)]
            ((finishCore sel (some r) v opts).trace))) ∧
      (opts.keepBranch = true →
        (lookupBranch r3 (sel r.config ++ v)).isSome) := by
  obtain ⟨r1, t1, r2, t2, r3, t3, hdev, hmst, hclean, hfc⟩ :=
    finishCore_ok_shape sel r v opts d w m out hd hw hm hok
  have hd1 := developMergeStep_events r opts r.config.branchDevelop (sel r.config ++ v)
    (opts.onlyMaster || d == w) r1 t1 (Except.ok out) hdev
  have hm2 := masterMergeTagStep_events r1 opts r.config.branchMaster (sel r.config ++ v)
    (r.config.prefVersiontag ++ v) m (m == w) r2 t2 (Except.ok ()) hmst
  have hhead : r2.headBranch = r.headBranch := by rw [hm2.1, hd1.2.1]
  refine ⟨r3, by rw [hfc], ?_, ?_⟩
  · intro hk
    obtain ⟨hnone, htags3, hcase1, hcase2⟩ :=
      cleanupStep_delete_shape r2 opts (sel r.config ++ v) r.config.branchMaster
        r3 t3 () hk hclean
    refine ⟨hnone, fun hh => ?_⟩
    have hh2 : r2.headBranch = sel r.config ++ v := by rw [hhead, hh]
    obtain ⟨hh3, ht3⟩ := hcase1 hh2
    refine ⟨hh3, r2.headTarget,
      RepoState.headTarget { r2 with headBranch := r.config.branchMaster }, ?_⟩
    have htr : (finishCore sel (some r) v opts).trace =
        [Event.configRead, Event.branchLookup r.config.branchDevelop,
         Event.branchLookup (sel r.config ++ v), Event.branchLookup r.config.branchMaster,
         Event.commitLookup d, Event.commitLookup w, Event.commitLookup m] ++
          t1 ++ t2 ++ t3 := by rw [hfc]
    rw [htr, ← ht3]
    exact List.sublist_append_right _ _
  · intro hk
    have h0 := (cleanupStep_keep r2 opts (sel r.config ++ v) r.config.branchMaster
      hk).symm.trans hclean
    simp only [Prod.mk.injEq] at h0
    have hb1 : (lookupBranch r1 (sel r.config ++ v)).isSome =
        (lookupBranch r (sel r.config ++ v)).isSome := by
      cases hcd : (opts.onlyMaster || d == w) with
      | true =>
        rw [hcd] at hdev
        have hdd := (developMergeStep_cancel r opts r.config.branchDevelop
          (sel r.config ++ v)).symm.trans hdev
        simp only [Prod.mk.injEq] at hdd
        rw [← hdd.1]
      | false =>
        rw [hcd] at hdev
        obtain ⟨oid, hp, hmo, hr1, ht1⟩ :=
          developMergeStep_ok_shape r opts r.config.branchDevelop (sel r.config ++ v)
            r1 t1 out hdev
        rw [hr1]
        exact lookupBranch_merge_isSome r r.config.branchDevelop (sel r.config ++ v)
    have hb2 : (lookupBranch r2 (sel r.config ++ v)).isSome =
        (lookupBranch r1 (sel r.config ++ v)).isSome := by
      cases hcm : (m == w) with
      | true =>
        rw [hcm] at hmst
        have hmm := (masterMergeTagStep_cancel r1 opts r.config.branchMaster
          (sel r.config ++ v) (r.config.prefVersiontag ++ v) m).symm.trans hmst
        simp only [Prod.mk.injEq] at hmm
        rw [← hmm.1]
        rfl
      | false =>
        rw [hcm] at hmst
        obtain ⟨oid, hp, hr2, ht2⟩ :=
          masterMergeTagStep_ok_shape r1 opts r.config.branchMaster (sel r.config ++ v)
            (r.config.prefVersiontag ++ v) m r2 t2 () hmst
        rw [hr2]
        exact lookupBranch_merge_isSome r1 r.config.branchMaster (sel r.config ++ v)
    rw [← h0.1, hb2, hb1, hw]
    rfl

/-- C5 witness: on the sample repository with default options the release
branch no longer resolves after the finish call. -/
theorem finish_cleanup_branch_deletion_witness :
    ∃ r3, (finishRelease (some sampleRepo) "1.0" {}).repo = some r3 ∧
      lookupBranch r3 "release/1.0" = none := by
  obtain ⟨r3, hrepo, hdel, hkeep⟩ := finish_cleanup_branch_deletion
    (fun config => config.prefRelease) sampleRepo "1.0" {} 2 3 1 (some 10)
    rfl rfl rfl rfl
  exact ⟨r3, hrepo, (hdel rfl).1⟩

/-- C9: with a truthy keepBranch, the cleanup stage performs no branch
deletion and no checkout, and postCheckoutHook is never invoked anywhere in
the finish pipeline: no branchDelete, checkout or postCheckoutHook event
occurs in the trace of any finish run, successful or not. -/
theorem finish_keepBranch_frame (sel : GitflowConfig → String)
    (repo : Option RepoState) (v : String) (opts : FinishOptions)
    (hk : opts.keepBranch = true) :
    ∀ n a b, Event.branchDelete n ∉ (finishCore sel repo v opts).trace ∧
      Event.checkout n ∉ (finishCore sel repo v opts).trace ∧
      Event.postCheckoutHook a b ∉ (finishCore sel repo v opts).trace := by
  intro n a b
  cases repo with
  | none => simp [finishCore]
  | some r =>
    by_cases hv : v = ""
    · subst hv
      simp [finishCore]
    · simp only [finishCore, getConfig, if_neg hv]
      cases hdl : lookupBranch r r.config.branchDevelop with
      | none => simp
      | some dOid =>
        cases hwl : lookupBranch r (sel r.config ++ v) with
        | none => simp
        | some wOid =>
          cases hml : lookupBranch r r.config.branchMaster with
          | none => simp
          | some mOid =>
            rcases hdev : developMergeStep r opts r.config.branchDevelop
                (sel r.config ++ v) (opts.onlyMaster || dOid == wOid) with ⟨r1, t1, e1⟩
            have hn1 : Event.branchDelete n ∉ t1 ∧ Event.checkout n ∉ t1 ∧
                Event.postCheckoutHook a b ∉ t1 := by
              rcases (developMergeStep_events r opts r.config.branchDevelop
                  (sel r.config ++ v) (opts.onlyMaster || dOid == wOid)
                  r1 t1 e1 hdev).2.2 with h | h | h <;> subst h <;> simp
            cases e1 with
            | error e =>
              simp only [hdev]
              simp [List.mem_append, hn1.1, hn1.2.1, hn1.2.2]
            | ok mo =>
              simp only [hdev]
              rcases hmst : masterMergeTagStep r1 opts r.config.branchMaster
                  (sel r.config ++ v) (r.config.prefVersiontag ++ v) mOid
                  (mOid == wOid) with ⟨r2, t2, e2⟩
              have hn2 : Event.branchDelete n ∉ t2 ∧ Event.checkout n ∉ t2 ∧
                  Event.postCheckoutHook a b ∉ t2 := by
                rcases (masterMergeTagStep_events r1 opts r.config.branchMaster
                    (sel r.config ++ v) (r.config.prefVersiontag ++ v) mOid
                    (mOid == wOid) r2 t2 e2 hmst).2 with h | h | h | ⟨oid, h⟩ <;>
                  subst h <;> simp
              cases e2 with
              | error e =>
                simp only [hmst]
                simp [List.mem_append, hn1.1, hn1.2.1, hn1.2.2, hn2.1, hn2.2.1, hn2.2.2]
              | ok u =>
                simp only [hmst, cleanupStep_keep r2 opts (sel r.config ++ v)
                  r.config.branchMaster hk]
                simp [List.mem_append, hn1.1, hn1.2.1, hn1.2.2, hn2.1, hn2.2.1, hn2.2.2]

/-- C9 witness: with keepBranch true the sample run contains no deletion,
checkout or postCheckoutHook event. -/
theorem finish_keepBranch_frame_witness :
    Event.branchDelete "release/1.0" ∉
      (finishRelease (some sampleRepo) "1.0" { keepBranch := true }).trace ∧
    Event.checkout "master" ∉
      (finishRelease (some sampleRepo) "1.0" { keepBranch := true }).trace ∧
    Event.postCheckoutHook 3 11 ∉
      (finishRelease (some sampleRepo) "1.0" { keepBranch := true }).trace := by
  have h1 := finish_keepBranch_frame (fun config => config.prefRelease)
    (some sampleRepo) "1.0" { keepBranch := true } rfl "release/1.0" 3 11
  have h2 := finish_keepBranch_frame (fun config => config.prefRelease)
    (some sampleRepo) "1.0" { keepBranch := true } rfl "master" 3 11
  exact ⟨h1.1, h2.2.1, h1.2.2⟩

/-- C6: within every successful finish call in which neither merge is
cancelled, the trace contains, in this strict order, beforeMergeCallback for
develop, the develop merge, beforeMergeCallback for master, the master merge,
and the tag creation; and when keepBranch is false the cleanup deletion
follows after all of them. -/
theorem finish_step_ordering (sel : GitflowConfig → String) (r : RepoState)
    (v : String) (opts : FinishOptions) (d w m : Oid) (out : Option Oid)
    (hd : lookupBranch r r.config.branchDevelop = some d)
    (hw : lookupBranch r (sel r.config ++ v) = some w)
    (hm : lookupBranch r r.config.branchMaster = some m)
    (hok : (finishCore sel (some r) v opts).outcome = Except.ok out)
    (hOM : opts.onlyMaster = false) (hdw : d ≠ w) (hmw : m ≠ w) :
    ∃ o2,
      List.Sublist
        [Event.beforeMergeCallback r.config.branchDevelop (sel r.config ++ v),
         Event.mergeOp r.config.branchDevelop (sel r.config ++ v),
         Event.beforeMergeCallback r.config.branchMaster (sel r.config ++ v),
         Event.mergeOp r.config.branchMaster (sel r.config ++ v),
         Event.tagCreate (r.config.prefVersiontag ++ v) o2]
        ((finishCore sel (some r) v opts).trace) ∧
      (opts.keepBranch = false →
        List.Sublist
          [Event.beforeMergeCallback r.config.branchDevelop (sel r.config ++ v),
           Event.mergeOp r.config.branchDevelop (sel r.config ++ v),
           Event.beforeMergeCallback r.config.branchMaster (sel r.config ++ v),
           Event.mergeOp r.config.branchMaster (sel r.config ++ v),
           Event.tagCreate (r.config.prefVersiontag ++ v) o2,
           Event.branchDelete (sel r.config ++ v)]
          ((finishCore sel (some r) v opts).trace)) := by
  obtain ⟨r1, t1, r2, t2, r3, t3, hdev, hmst, hclean, hfc⟩ :=
    finishCore_ok_shape sel r v opts d w m out hd hw hm hok
  have hcd : (opts.onlyMaster || d == w) = false := by simp [hOM, hdw]
  have hcm : (m == w) = false := by simp [hmw]
  rw [hcd] at hdev
  rw [hcm] at hmst
  obtain ⟨o1, hp1, hmo, hr1, ht1⟩ :=
    developMergeStep_ok_shape r opts r.config.branchDevelop (sel r.config ++ v)
      r1 t1 out hdev
  obtain ⟨o2, hp2, hr2, ht2⟩ :=
    masterMergeTagStep_ok_shape r1 opts r.config.branchMaster (sel r.config ++ v)
      (r.config.prefVersiontag ++ v) m r2 t2 () hmst
  have htr : (finishCore sel (some r) v opts).trace =
      [Event.configRead, Event.branchLookup r.config.branchDevelop,
       Event.branchLookup (sel r.config ++ v), Event.branchLookup r.config.branchMaster,
       Event.commitLookup d, Event.commitLookup w, Event.commitLookup m] ++
        t1 ++ t2 ++ t3 := by rw [hfc]
  have hSA : List.Sublist
      [Event.beforeMergeCallback r.config.branchDevelop (sel r.config ++ v),
       Event.mergeOp r.config.branchDevelop (sel r.config ++ v)]
      ([Event.configRead, Event.branchLookup r.config.branchDevelop,
        Event.branchLookup (sel r.config ++ v), Event.branchLookup r.config.branchMaster,
        Event.commitLookup d, Event.commitLookup w, Event.commitLookup m] ++ t1) := by
    rw [ht1]
    exact List.Sublist.trans
      (List.sublist_append_left
        [Event.beforeMergeCallback r.config.branchDevelop (sel r.config ++ v),
         Event.mergeOp r.config.branchDevelop (sel r.config ++ v)]
        [Event.postDevelopMergeCallback r.freshOid])
      (List.sublist_append_right _ _)
  have hS2 : List.Sublist
      [Event.beforeMergeCallback r.config.branchMaster (sel r.config ++ v),
       Event.mergeOp r.config.branchMaster (sel r.config ++ v),
       Event.tagCreate (r.config.prefVersiontag ++ v) o2] t2 := by
    rw [ht2]
    exact (((List.Sublist.refl _).cons _).cons₂ _).cons₂ _
  have hbase : List.Sublist
      [Event.beforeMergeCallback r.config.branchDevelop (sel r.config ++ v),
       Event.mergeOp r.config.branchDevelop (sel r.config ++ v),
       Event.beforeMergeCallback r.config.branchMaster (sel r.config ++ v),
       Event.mergeOp r.config.branchMaster (sel r.config ++ v),
       Event.tagCreate (r.config.prefVersiontag ++ v) o2]
      (([Event.configRead, Event.branchLookup r.config.branchDevelop,
         Event.branchLookup (sel r.config ++ v), Event.branchLookup r.config.branchMaster,
         Event.commitLookup d, Event.commitLookup w, Event.commitLookup m] ++ t1) ++ t2) :=
    List.Sublist.append hSA hS2
  refine ⟨o2, ?_, ?_⟩
  · rw [htr]
    exact List.Sublist.trans hbase (List.sublist_append_left _ t3)
  · intro hk
    obtain ⟨hnone, htg, hc1, hc2⟩ :=
      cleanupStep_delete_shape r2 opts (sel r.config ++ v) r.config.branchMaster
        r3 t3 () hk hclean
    have hS3 : List.Sublist [Event.branchDelete (sel r.config ++ v)] t3 := by
      by_cases hhh : r2.headBranch = sel r.config ++ v
      · rw [(hc1 hhh).2]
        exact ((List.Sublist.refl _).cons _).cons _
      · rw [(hc2 hhh).2]
    rw [htr]
    exact List.Sublist.append hbase hS3

/-- C6 witness: on the sample repository with default options the ordered
event sequence, deletion included, is a sublist of the trace. -/
theorem finish_step_ordering_witness :
    ∃ o2, List.Sublist
      [Event.beforeMergeCallback "develop" "release/1.0",
       Event.mergeOp "develop" "release/1.0",
       Event.beforeMergeCallback "master" "release/1.0",
       Event.mergeOp "master" "release/1.0",
       Event.tagCreate ("v" ++ "1.0") o2,
       Event.branchDelete "release/1.0"]
      ((finishRelease (some sampleRepo) "1.0" {}).trace) := by
  obtain ⟨o2, hbase, hdel⟩ := finish_step_ordering (fun config => config.prefRelease)
    sampleRepo "1.0" {} 2 3 1 (some 10) rfl rfl rfl rfl rfl (by decide) (by decide)
  exact ⟨o2, hdel rfl⟩
